import Mathlib

/-!
Verification of an in-memory presence registry (Go source `govitest.go`).

The program keeps a two-level map: room id → Room, and inside each Room a
map user id → User entry with an absolute expiry instant.  Three HTTP
handlers drive it: `checkInHandler` (insert/overwrite a user with a fixed
5-minute TTL), `updatePresenceHandler` (refresh an existing user's expiry,
caller TTL in seconds when positive, default otherwise), and
`listRoomsHandler` (enumerate rooms, lazily evicting expired entries).

Shallow embedding choices:
* Go `map[string]T` becomes an association list `List (String × T)`;
  `lookupKey` returns the first binding (Go maps have unique keys, an
  invariant we track where statements need it), `insertKey` overwrites.
* `time.Time` becomes `Int`, measured in seconds; `5 * time.Minute`
  is `5 * 60`.  Each handler takes the instant `now` at which it runs.
* Each handler returns the next registry state paired with
  `Except ApiError Unit`; HTTP decoding is out of scope, the handlers are
  modelled from the point where the request fields are available.
* The Go handlers mutate under locks; the registry write lock is held
  across the whole find-or-create of a room, so concurrent executions of
  the critical sections serialize and are modelled as sequential calls.
-/

/-- A user entry: `User` struct of the source (`ID`, `ExpiresAt`). -/
structure User where
  ID : String
  ExpiresAt : Int
deriving DecidableEq, Repr

/-- A room: `Room` struct of the source (`Name`, `Users`).  The mutex field
is a locking artefact with no sequential content and is not modelled. -/
structure Room where
  Name : String
  Users : List (String × User)
deriving DecidableEq, Repr

/-- The registry: `ConferenceAPI` struct of the source (`Rooms`). -/
structure ConferenceAPI where
  Rooms : List (String × Room)
deriving DecidableEq, Repr

/-- The error outcomes the handlers can report (HTTP 400/404 responses). -/
inductive ApiError where
  | invalidRequest
  | roomNotFound
  | userNotFound
deriving DecidableEq, Repr

/-- Map read `m[k]`: first binding of `k` in the association list. -/
def lookupKey {β : Type} : List (String × β) → String → Option β
  | [], _ => none
  | (k, v) :: rest, key => if k = key then some v else lookupKey rest key

/-- Remove every binding of `k` (helper for map overwrite). -/
def eraseKey {β : Type} : List (String × β) → String → List (String × β)
  | [], _ => []
  | (a, b) :: rest, k =>
    if a = k then eraseKey rest k else (a, b) :: eraseKey rest k

/-- Map write `m[k] = v`: overwrite semantics of a Go map assignment. -/
def insertKey {β : Type} (l : List (String × β)) (k : String) (v : β) : List (String × β) :=
  (k, v) :: eraseKey l k

/-- Number of bindings of `k` present in the list. -/
def countKey {β : Type} : List (String × β) → String → Nat
  | [], _ => 0
  | (a, _) :: rest, k => (if a = k then 1 else 0) + countKey rest k

/-- The fixed default TTL: `5 * time.Minute`, in seconds. -/
def defaultTTL : Int := 5 * 60

/-- `checkInHandler` (src/govitest.go:36-78), from the point where the
request fields are decoded.  Empty `user_id`/`room_id` is rejected before
the registry is touched; otherwise the room is found or created under the
registry write lock and the user entry is overwritten with
`expiresAt = now + 5min`. -/
def checkIn (api : ConferenceAPI) (userId roomId : String) (now : Int) :
    ConferenceAPI × Except ApiError Unit :=
  if userId = "" ∨ roomId = "" then
    (api, .error .invalidRequest)
  else
    let user : User := ⟨userId, now + defaultTTL⟩
    let room : Room :=
      match lookupKey api.Rooms roomId with
      | some r => r
      | none => ⟨roomId, []⟩
    let room' : Room := { room with Users := insertKey room.Users userId user }
    (⟨insertKey api.Rooms roomId room'⟩, .ok ())

/-- The expiry instant `updatePresenceHandler` computes
(src/govitest.go:101-104): caller TTL in seconds when strictly positive,
otherwise the 5-minute default. -/
def refreshExpiry (now : Int) (expiresIn : Int) : Int :=
  if expiresIn > 0 then now + expiresIn else now + defaultTTL

/-- `updatePresenceHandler` (src/govitest.go:81-127): reject empty ids,
then fail with `roomNotFound` when the room is absent, with `userNotFound`
when the user has no entry in the room, and otherwise overwrite that
entry's `ExpiresAt` (no expiry check on the old entry). -/
def updatePresence (api : ConferenceAPI) (userId roomId : String)
    (expiresIn : Int) (now : Int) : ConferenceAPI × Except ApiError Unit :=
  if userId = "" ∨ roomId = "" then
    (api, .error .invalidRequest)
  else
    match lookupKey api.Rooms roomId with
    | none => (api, .error .roomNotFound)
    | some room =>
      match lookupKey room.Users userId with
      | none => (api, .error .userNotFound)
      | some user =>
        let user' : User := { user with ExpiresAt := refreshExpiry now expiresIn }
        let room' : Room := { room with Users := insertKey room.Users userId user' }
        (⟨insertKey api.Rooms roomId room'⟩, .ok ())

/-- The eviction pass of `listRoomsHandler` on one room's user map
(src/govitest.go:142-148): keep an entry iff `ExpiresAt` is strictly after
`now` (`user.ExpiresAt.After(time.Now())`), delete it otherwise. -/
def evictUsers (users : List (String × User)) (now : Int) : List (String × User) :=
  users.filter (fun p => now < p.2.ExpiresAt)

/-- The user ids `listRoomsHandler` reports for one room: the keys that
survive the eviction pass. -/
def activeUserIds (users : List (String × User)) (now : Int) : List String :=
  (evictUsers users now).map Prod.fst

/-- `listRoomsHandler` (src/govitest.go:130-160): for every room, evict
expired entries and report the surviving user ids.  Returns the response
body (room id, active user ids) together with the pruned registry. -/
def listRooms (api : ConferenceAPI) (now : Int) :
    List (String × List String) × ConferenceAPI :=
  (api.Rooms.map (fun p => (p.1, activeUserIds p.2.Users now)),
   ⟨api.Rooms.map (fun p => (p.1, { p.2 with Users := evictUsers p.2.Users now }))⟩)

/-- The find-or-create step of `checkInHandler` (src/govitest.go:62-71),
executed while the registry write lock is held: return the existing room,
or create, store and return a fresh empty one.  The `Bool` is the side
channel recording whether this call created a room. -/
def ensureRoom (rooms : List (String × Room)) (roomId : String) :
    List (String × Room) × Room × Bool :=
  match lookupKey rooms roomId with
  | some room => (rooms, room, false)
  | none =>
    let room : Room := ⟨roomId, []⟩
    (insertKey rooms roomId room, room, true)

/-- `n` serialized executions of the `ensureRoom` critical section for the
same room id (the registry write lock makes concurrent executions
serialize).  Returns the final room map and how many executions created a
room. -/
def ensureRoomN : Nat → List (String × Room) → String → List (String × Room) × Nat
  | 0, rooms, _ => (rooms, 0)
  | n + 1, rooms, rid =>
    let step := ensureRoom rooms rid
    let rest := ensureRoomN n step.1 rid
    (rest.1, rest.2 + (if step.2.2 then 1 else 0))

/-- Registry states reachable from the empty initial state
(`make(map[string]*Room)`) by any sequence of handler executions. -/
inductive Reachable : ConferenceAPI → Prop where
  | init : Reachable ⟨[]⟩
  | stepCheckIn (api : ConferenceAPI) (u r : String) (now : Int) :
      Reachable api → Reachable (checkIn api u r now).1
  | stepUpdate (api : ConferenceAPI) (u r : String) (eIn now : Int) :
      Reachable api → Reachable (updatePresence api u r eIn now).1
  | stepList (api : ConferenceAPI) (now : Int) :
      Reachable api → Reachable (listRooms api now).2

/-- Every user entry is stored under its own `ID` as key. -/
def UserKeysOk (users : List (String × User)) : Prop :=
  ∀ p ∈ users, (p : String × User).2.ID = p.1

/-- Every room is stored under its own `Name` as key, and its user map
satisfies `UserKeysOk`. -/
def KeysConsistent (api : ConferenceAPI) : Prop :=
  ∀ q ∈ api.Rooms, (q : String × Room).2.Name = q.1 ∧ UserKeysOk q.2.Users

instance : DecidablePred UserKeysOk := fun users =>
  inferInstanceAs (Decidable (∀ p ∈ users, _))

instance : DecidablePred KeysConsistent := fun api =>
  inferInstanceAs (Decidable (∀ q ∈ api.Rooms, _))

/-! ### Map lemmas -/

theorem lookupKey_erase_other {β : Type} (l : List (String × β)) (k k' : String)
    (h : k' ≠ k) : lookupKey (eraseKey l k) k' = lookupKey l k' := by
  induction l with
  | nil => rfl
  | cons p rest ih =>
    obtain ⟨a, b⟩ := p
    by_cases hak : a = k
    · subst hak
      have hk' : a ≠ k' := fun hh => h hh.symm
      simp [eraseKey, lookupKey, hk', ih]
    · simp [eraseKey, lookupKey, hak, ih]

theorem lookupKey_insert_self {β : Type} (l : List (String × β)) (k : String) (v : β) :
    lookupKey (insertKey l k v) k = some v := by
  simp [insertKey, lookupKey]

theorem lookupKey_insert_other {β : Type} (l : List (String × β)) (k k' : String)
    (v : β) (h : k' ≠ k) :
    lookupKey (insertKey l k v) k' = lookupKey l k' := by
  simp only [insertKey, lookupKey]
  rw [if_neg (fun hh => h hh.symm)]
  exact lookupKey_erase_other l k k' h

theorem lookupKey_mem {β : Type} (l : List (String × β)) (k : String) (v : β)
    (h : lookupKey l k = some v) : (k, v) ∈ l := by
  induction l with
  | nil => simp [lookupKey] at h
  | cons p rest ih =>
    obtain ⟨a, b⟩ := p
    simp only [lookupKey] at h
    by_cases hak : a = k
    · subst hak
      rw [if_pos rfl, Option.some.injEq] at h
      subst h
      exact List.mem_cons_self _ _
    · rw [if_neg hak] at h
      exact List.mem_cons_of_mem _ (ih h)

theorem mem_of_mem_eraseKey {β : Type} (l : List (String × β)) (k : String)
    (p : String × β) (h : p ∈ eraseKey l k) : p ∈ l ∧ p.1 ≠ k := by
  induction l with
  | nil => simp [eraseKey] at h
  | cons q rest ih =>
    obtain ⟨a, b⟩ := q
    by_cases hak : a = k
    · rw [eraseKey, if_pos hak] at h
      exact ⟨List.mem_cons_of_mem _ (ih h).1, (ih h).2⟩
    · rw [eraseKey, if_neg hak] at h
      rcases List.mem_cons.mp h with h1 | h2
      · subst h1
        exact ⟨List.mem_cons_self _ _, hak⟩
      · exact ⟨List.mem_cons_of_mem _ (ih h2).1, (ih h2).2⟩

theorem mem_insertKey {β : Type} (l : List (String × β)) (k : String) (v : β)
    (p : String × β) (h : p ∈ insertKey l k v) : p = (k, v) ∨ p ∈ l := by
  rcases List.mem_cons.mp h with h1 | h2
  · exact Or.inl h1
  · exact Or.inr (mem_of_mem_eraseKey l k p h2).1

theorem lookupKey_map {β γ : Type} (l : List (String × β)) (f : β → γ) (k : String) :
    lookupKey (l.map (fun p => (p.1, f p.2))) k = (lookupKey l k).map f := by
  induction l with
  | nil => rfl
  | cons p rest ih =>
    obtain ⟨a, b⟩ := p
    by_cases hak : a = k
    · subst hak; simp [lookupKey]
    · simp [lookupKey, hak, ih]

theorem lookupKey_of_mem_nodup {β : Type} (l : List (String × β)) (k : String) (v : β)
    (hnd : (l.map Prod.fst).Nodup) (h : (k, v) ∈ l) : lookupKey l k = some v := by
  induction l with
  | nil => simp at h
  | cons p rest ih =>
    obtain ⟨a, b⟩ := p
    simp only [List.map_cons, List.nodup_cons] at hnd
    rcases List.mem_cons.mp h with h1 | h2
    · cases h1
      simp [lookupKey]
    · have hak : a ≠ k := by
        intro hak
        subst hak
        exact hnd.1 (List.mem_map.mpr ⟨(a, v), h2, rfl⟩)
      simp only [lookupKey, if_neg hak]
      exact ih hnd.2 h2

/-! ### Claim theorems -/

/-- C8: a check-in or refresh request whose user id or room id is empty
fails with `invalidRequest` and leaves the registry state unchanged; the
boundary check runs before any registry access. -/
theorem boundary_rejects_invalid (api : ConferenceAPI) (u r : String) (eIn now : Int)
    (h : u = "" ∨ r = "") :
    checkIn api u r now = (api, .error .invalidRequest) ∧
    updatePresence api u r eIn now = (api, .error .invalidRequest) := by
  constructor
  · rw [checkIn, if_pos h]
  · rw [updatePresence, if_pos h]

/-- Witness for C8 at a concrete request with an empty user id. -/
theorem boundary_rejects_invalid_witness :
    ("" = "" ∨ "r1" = "") ∧
    checkIn ⟨[]⟩ "" "r1" 0 = (⟨[]⟩, .error .invalidRequest) ∧
    updatePresence ⟨[]⟩ "" "r1" 7 0 = (⟨[]⟩, .error .invalidRequest) :=
  ⟨Or.inl rfl, boundary_rejects_invalid ⟨[]⟩ "" "r1" 7 0 (Or.inl rfl)⟩

/-- C2: a check-in with non-empty ids always succeeds, and the room's
stored entry for the user is exactly the entry written by this call
(`expiresAt = now + defaultTTL`), whatever the prior state was — so for any
sequence of check-ins of the same user the last write wins, with no
distinction between first check-in and re-check-in. -/
theorem checkIn_lastWriteWins (api : ConferenceAPI) (u r : String) (now : Int)
    (hu : u ≠ "") (hr : r ≠ "") :
    (checkIn api u r now).2 = .ok () ∧
    ∃ room, lookupKey (checkIn api u r now).1.Rooms r = some room ∧
      lookupKey room.Users u = some ⟨u, now + defaultTTL⟩ := by
  have hcond : ¬(u = "" ∨ r = "") := by
    rintro (h | h)
    · exact hu h
    · exact hr h
  rw [checkIn, if_neg hcond]
  exact ⟨rfl, _, lookupKey_insert_self _ _ _, lookupKey_insert_self _ _ _⟩

/-- Witness for C2: two successive check-ins of the same user; the
surviving entry is the one of the second call. -/
theorem checkIn_lastWriteWins_witness :
    ("alice" : String) ≠ "" ∧ ("r1" : String) ≠ "" ∧
    ((checkIn (checkIn ⟨[]⟩ "alice" "r1" 10).1 "alice" "r1" 20).2 = .ok () ∧
      ∃ room,
        lookupKey (checkIn (checkIn ⟨[]⟩ "alice" "r1" 10).1 "alice" "r1" 20).1.Rooms
          "r1" = some room ∧
        lookupKey room.Users "alice" = some ⟨"alice", 20 + defaultTTL⟩) :=
  ⟨by decide, by decide,
    checkIn_lastWriteWins (checkIn ⟨[]⟩ "alice" "r1" 10).1 "alice" "r1" 20
      (by decide) (by decide)⟩

/-- C4: the entry written by a check-in expires at `now + 5*60` (five
minutes); the entry written by a successful refresh expires at `now + eIn`
when the caller-supplied TTL `eIn` (whole seconds) is strictly positive and
at `now + 5*60` otherwise (zero, negative, or absent, which decodes as 0). -/
theorem ttl_policy (api : ConferenceAPI) (u r : String) (eIn now : Int)
    (hu : u ≠ "") (hr : r ≠ "") :
    (∀ room, lookupKey (checkIn api u r now).1.Rooms r = some room →
      lookupKey room.Users u = some ⟨u, now + 5 * 60⟩) ∧
    (∀ room entry room', lookupKey api.Rooms r = some room →
      lookupKey room.Users u = some entry →
      lookupKey (updatePresence api u r eIn now).1.Rooms r = some room' →
      lookupKey room'.Users u =
        some ⟨entry.ID, if eIn > 0 then now + eIn else now + 5 * 60⟩) := by
  have hcond : ¬(u = "" ∨ r = "") := by
    rintro (h | h)
    · exact hu h
    · exact hr h
  constructor
  · intro room hroom
    rw [checkIn, if_neg hcond] at hroom
    rw [lookupKey_insert_self] at hroom
    cases hroom
    exact lookupKey_insert_self _ _ _
  · intro room entry room' hroom hentry hroom'
    simp only [updatePresence, if_neg hcond, hroom, hentry] at hroom'
    rw [lookupKey_insert_self, Option.some.injEq] at hroom'
    subst hroom'
    rw [lookupKey_insert_self]
    rfl

/-- Witness for C4: a check-in and a refresh with TTL 10, both at time
200, on a concrete registry. -/
theorem ttl_policy_witness :
    ("bob" : String) ≠ "" ∧ ("r2" : String) ≠ "" ∧
    ((∀ room,
        lookupKey (checkIn ⟨[("r2", ⟨"r2", [("bob", ⟨"bob", 50⟩)]⟩)]⟩
          "bob" "r2" 200).1.Rooms "r2" = some room →
        lookupKey room.Users "bob" = some ⟨"bob", 200 + 5 * 60⟩) ∧
      (∀ room entry room',
        lookupKey (ConferenceAPI.mk [("r2", ⟨"r2", [("bob", ⟨"bob", 50⟩)]⟩)]).Rooms
          "r2" = some room →
        lookupKey room.Users "bob" = some entry →
        lookupKey (updatePresence ⟨[("r2", ⟨"r2", [("bob", ⟨"bob", 50⟩)]⟩)]⟩
          "bob" "r2" 10 200).1.Rooms "r2" = some room' →
        lookupKey room'.Users "bob" =
          some ⟨entry.ID, if (10 : Int) > 0 then 200 + 10 else 200 + 5 * 60⟩)) :=
  ⟨by decide, by decide,
    ttl_policy ⟨[("r2", ⟨"r2", [("bob", ⟨"bob", 50⟩)]⟩)]⟩ "bob" "r2" 10 200
      (by decide) (by decide)⟩

/-- A small concrete registry used by several witnesses: one room `"r3"`
whose single user `"carol"` expires at time 100. -/
def sampleApi : ConferenceAPI :=
  ⟨[("r3", ⟨"r3", [("carol", ⟨"carol", 100⟩)]⟩)]⟩

/-- C3: with well-formed (non-empty) ids, a refresh fails with
`roomNotFound` exactly when the room id is absent, fails with
`userNotFound` exactly when the user has no entry in the existing room,
and succeeds for any present entry — including an expired one — in which
case it unconditionally overwrites that entry's `ExpiresAt` (no expiry
check anywhere). -/
theorem refresh_error_semantics (api : ConferenceAPI) (u r : String) (eIn now : Int)
    (hu : u ≠ "") (hr : r ≠ "") :
    ((updatePresence api u r eIn now).2 = .error .roomNotFound ↔
      lookupKey api.Rooms r = none) ∧
    (∀ room, lookupKey api.Rooms r = some room →
      ((updatePresence api u r eIn now).2 = .error .userNotFound ↔
        lookupKey room.Users u = none)) ∧
    (∀ room entry, lookupKey api.Rooms r = some room →
      lookupKey room.Users u = some entry →
      (updatePresence api u r eIn now).2 = .ok () ∧
      ∃ room', lookupKey (updatePresence api u r eIn now).1.Rooms r = some room' ∧
        lookupKey room'.Users u =
          some { entry with ExpiresAt := refreshExpiry now eIn }) := by
  have hcond : ¬(u = "" ∨ r = "") := by
    rintro (h | h)
    · exact hu h
    · exact hr h
  refine ⟨?_, ?_, ?_⟩
  · rcases hroom : lookupKey api.Rooms r with _ | room
    · simp [updatePresence, if_neg hcond, hroom]
    · rcases hentry : lookupKey room.Users u with _ | entry
      · simp [updatePresence, if_neg hcond, hroom, hentry]
      · simp [updatePresence, if_neg hcond, hroom, hentry]
  · intro room hroom
    rcases hentry : lookupKey room.Users u with _ | entry
    · simp [updatePresence, if_neg hcond, hroom, hentry]
    · simp [updatePresence, if_neg hcond, hroom, hentry]
  · intro room entry hroom hentry
    simp only [updatePresence, if_neg hcond, hroom, hentry]
    exact ⟨by trivial, _, lookupKey_insert_self _ _ _, lookupKey_insert_self _ _ _⟩

/-- Witness for C3 at a concrete registry and time 150, where carol's
entry is already expired (100 ≤ 150) yet the refresh still succeeds. -/
theorem refresh_error_semantics_witness :
    ("carol" : String) ≠ "" ∧ ("r3" : String) ≠ "" ∧
    (((updatePresence sampleApi "carol" "r3" 30 150).2 = .error .roomNotFound ↔
        lookupKey sampleApi.Rooms "r3" = none) ∧
      (∀ room, lookupKey sampleApi.Rooms "r3" = some room →
        ((updatePresence sampleApi "carol" "r3" 30 150).2 = .error .userNotFound ↔
          lookupKey room.Users "carol" = none)) ∧
      (∀ room entry, lookupKey sampleApi.Rooms "r3" = some room →
        lookupKey room.Users "carol" = some entry →
        (updatePresence sampleApi "carol" "r3" 30 150).2 = .ok () ∧
        ∃ room',
          lookupKey (updatePresence sampleApi "carol" "r3" 30 150).1.Rooms "r3" =
            some room' ∧
          lookupKey room'.Users "carol" =
            some { entry with ExpiresAt := refreshExpiry 150 30 })) :=
  ⟨by decide, by decide,
    refresh_error_semantics sampleApi "carol" "r3" 30 150 (by decide) (by decide)⟩

/-- C10: a refresh that fails (for any reason) leaves the registry state
unchanged; a refresh that succeeds changes only the target user's
`ExpiresAt` in the target room — the room's name, the entry's `ID`, every
other user of that room, and every other room are unchanged. -/
theorem refresh_frame (api : ConferenceAPI) (u r : String) (eIn now : Int) :
    (∀ e, (updatePresence api u r eIn now).2 = .error e →
      (updatePresence api u r eIn now).1 = api) ∧
    (∀ room entry, lookupKey api.Rooms r = some room →
      lookupKey room.Users u = some entry →
      (updatePresence api u r eIn now).2 = .ok () →
      (∀ r', r' ≠ r →
        lookupKey (updatePresence api u r eIn now).1.Rooms r' =
          lookupKey api.Rooms r') ∧
      ∃ room', lookupKey (updatePresence api u r eIn now).1.Rooms r = some room' ∧
        room'.Name = room.Name ∧
        lookupKey room'.Users u = some ⟨entry.ID, refreshExpiry now eIn⟩ ∧
        ∀ u', u' ≠ u → lookupKey room'.Users u' = lookupKey room.Users u') := by
  constructor
  · intro e he
    by_cases hcond : u = "" ∨ r = ""
    · rw [updatePresence, if_pos hcond]
    · rcases hroom : lookupKey api.Rooms r with _ | room
      · simp only [updatePresence, if_neg hcond, hroom]
      · rcases hentry : lookupKey room.Users u with _ | entry
        · simp only [updatePresence, if_neg hcond, hroom, hentry]
        · simp only [updatePresence, if_neg hcond, hroom, hentry] at he
          exact absurd he (by simp)
  · intro room entry hroom hentry hok
    by_cases hcond : u = "" ∨ r = ""
    · rw [updatePresence, if_pos hcond] at hok
      exact absurd hok (by simp)
    · refine ⟨?_, ?_⟩
      · intro r' hr'
        simp only [updatePresence, if_neg hcond, hroom, hentry]
        exact lookupKey_insert_other _ _ _ _ hr'
      · simp only [updatePresence, if_neg hcond, hroom, hentry]
        refine ⟨_, lookupKey_insert_self _ _ _, rfl, lookupKey_insert_self _ _ _, ?_⟩
        intro u' hu'
        exact lookupKey_insert_other _ _ _ _ hu'

/-- Witness for C10 at the concrete registry, refreshing carol in room r3
with TTL 30 at time 150. -/
theorem refresh_frame_witness :
    (∀ e, (updatePresence sampleApi "carol" "r3" 30 150).2 = .error e →
      (updatePresence sampleApi "carol" "r3" 30 150).1 = sampleApi) ∧
    (∀ room entry, lookupKey sampleApi.Rooms "r3" = some room →
      lookupKey room.Users "carol" = some entry →
      (updatePresence sampleApi "carol" "r3" 30 150).2 = .ok () →
      (∀ r', r' ≠ "r3" →
        lookupKey (updatePresence sampleApi "carol" "r3" 30 150).1.Rooms r' =
          lookupKey sampleApi.Rooms r') ∧
      ∃ room',
        lookupKey (updatePresence sampleApi "carol" "r3" 30 150).1.Rooms "r3" =
          some room' ∧
        room'.Name = room.Name ∧
        lookupKey room'.Users "carol" = some ⟨entry.ID, refreshExpiry 150 30⟩ ∧
        ∀ u', u' ≠ "carol" →
          lookupKey room'.Users u' = lookupKey room.Users u') :=
  refresh_frame sampleApi "carol" "r3" 30 150

theorem evictUsers_idem (users : List (String × User)) (now : Int) :
    evictUsers (evictUsers users now) now = evictUsers users now := by
  simp [evictUsers, List.filter_filter]

/-- A second concrete registry for witnesses: room `"r4"` with one expired
user (`"dave"`, expires 100) and one active user (`"erin"`, expires 400)
relative to the witness time 150. -/
def sampleApi2 : ConferenceAPI :=
  ⟨[("r4", ⟨"r4", [("dave", ⟨"dave", 100⟩), ("erin", ⟨"erin", 400⟩)]⟩)]⟩

/-- C1: during a list-rooms pass at time `now`, a room's user map becomes
exactly its eviction residue, an entry with `ExpiresAt ≤ now` is deleted
from the map and its id excluded from the reported list, and an entry with
`now < ExpiresAt` is kept and its id reported.  The no-duplicate-key
hypothesis is the Go map invariant on the association-list encoding. -/
theorem snapshot_evicts_exactly_expired (api : ConferenceAPI) (now : Int)
    (r : String) (room : Room) (hroom : lookupKey api.Rooms r = some room)
    (hnd : (room.Users.map Prod.fst).Nodup) (u : String) (e : User)
    (he : (u, e) ∈ room.Users) :
    lookupKey (listRooms api now).2.Rooms r =
      some { room with Users := evictUsers room.Users now } ∧
    (e.ExpiresAt ≤ now →
      (u, e) ∉ evictUsers room.Users now ∧ u ∉ activeUserIds room.Users now) ∧
    (now < e.ExpiresAt →
      (u, e) ∈ evictUsers room.Users now ∧ u ∈ activeUserIds room.Users now) := by
  refine ⟨?_, ?_, ?_⟩
  · have h1 := lookupKey_map api.Rooms
      (fun rm => { rm with Users := evictUsers rm.Users now }) r
    rw [hroom] at h1
    exact h1
  · intro hexp
    constructor
    · intro hmem
      have hc := (List.mem_filter.mp hmem).2
      simp only [decide_eq_true_eq] at hc
      omega
    · intro hmem
      rcases List.mem_map.mp hmem with ⟨⟨u0, e0⟩, hmem0, hfst⟩
      have hu0 : u0 = u := hfst
      have hm0 := (List.mem_filter.mp hmem0).1
      have hc0 := (List.mem_filter.mp hmem0).2
      simp only [decide_eq_true_eq] at hc0
      rw [hu0] at hm0
      have h1 := lookupKey_of_mem_nodup room.Users u e hnd he
      have h2 := lookupKey_of_mem_nodup room.Users u e0 hnd hm0
      rw [h1, Option.some.injEq] at h2
      rw [← h2] at hc0
      omega
  · intro hact
    have hmem : (u, e) ∈ evictUsers room.Users now :=
      List.mem_filter.mpr ⟨he, by simpa using hact⟩
    exact ⟨hmem, List.mem_map.mpr ⟨(u, e), hmem, rfl⟩⟩

/-- Witness for C1: in the concrete two-user room, dave (expired at
time 150) is evicted and excluded. -/
theorem snapshot_evicts_exactly_expired_witness :
    lookupKey sampleApi2.Rooms "r4" =
      some ⟨"r4", [("dave", ⟨"dave", 100⟩), ("erin", ⟨"erin", 400⟩)]⟩ ∧
    (([("dave", ⟨"dave", 100⟩), ("erin", ⟨"erin", 400⟩)].map
        (Prod.fst (β := User))).Nodup) ∧
    ("dave", (⟨"dave", 100⟩ : User)) ∈
      [("dave", (⟨"dave", (100 : Int)⟩ : User)), ("erin", ⟨"erin", 400⟩)] ∧
    (lookupKey (listRooms sampleApi2 150).2.Rooms "r4" =
      some { (⟨"r4", [("dave", ⟨"dave", 100⟩), ("erin", ⟨"erin", 400⟩)]⟩ : Room) with
        Users := evictUsers [("dave", ⟨"dave", 100⟩), ("erin", ⟨"erin", 400⟩)] 150 } ∧
    ((⟨"dave", 100⟩ : User).ExpiresAt ≤ 150 →
      ("dave", (⟨"dave", 100⟩ : User)) ∉
        evictUsers [("dave", ⟨"dave", 100⟩), ("erin", ⟨"erin", 400⟩)] 150 ∧
      "dave" ∉ activeUserIds [("dave", ⟨"dave", 100⟩), ("erin", ⟨"erin", 400⟩)] 150) ∧
    (150 < (⟨"dave", 100⟩ : User).ExpiresAt →
      ("dave", (⟨"dave", 100⟩ : User)) ∈
        evictUsers [("dave", ⟨"dave", 100⟩), ("erin", ⟨"erin", 400⟩)] 150 ∧
      "dave" ∈ activeUserIds [("dave", ⟨"dave", 100⟩), ("erin", ⟨"erin", 400⟩)] 150)) :=
  ⟨by decide, by decide, by decide,
    snapshot_evicts_exactly_expired sampleApi2 150 "r4"
      ⟨"r4", [("dave", ⟨"dave", 100⟩), ("erin", ⟨"erin", 400⟩)]⟩
      (by decide) (by decide) "dave" ⟨"dave", 100⟩ (by decide)⟩

/-- C5: one list-rooms pass at time `now` physically removes every entry
with `ExpiresAt ≤ now`, so after it every surviving entry is strictly
unexpired, and a second pass at the same `now` deletes nothing and returns
the same response — list-rooms at a fixed instant is idempotent. -/
theorem snapshot_idempotent (api : ConferenceAPI) (now : Int) :
    listRooms (listRooms api now).2 now = listRooms api now ∧
    ∀ q ∈ (listRooms api now).2.Rooms, ∀ p ∈ (q : String × Room).2.Users,
      now < (p : String × User).2.ExpiresAt := by
  constructor
  · simp only [listRooms, List.map_map, Function.comp_def, activeUserIds, evictUsers_idem]
  · intro q hq p hp
    simp only [listRooms] at hq
    rcases List.mem_map.mp hq with ⟨q0, _, hq0⟩
    rw [← hq0] at hp
    have hc := (List.mem_filter.mp hp).2
    simpa using hc

/-- Witness for C5 at the concrete two-user registry and time 150. -/
theorem snapshot_idempotent_witness :
    listRooms (listRooms sampleApi2 150).2 150 = listRooms sampleApi2 150 ∧
    ∀ q ∈ (listRooms sampleApi2 150).2.Rooms, ∀ p ∈ (q : String × Room).2.Users,
      (150 : Int) < (p : String × User).2.ExpiresAt :=
  snapshot_idempotent sampleApi2 150

/-- C6: no operation ever deletes a room.  A room present before a
check-in, a refresh, or a list-rooms pass is still present afterwards; it
appears in the list-rooms response, and when all its users are expired it
appears with an empty user-id list. -/
theorem rooms_never_deleted (api : ConferenceAPI) (u r : String) (eIn now : Int)
    (rid : String) (room : Room) (hmem : lookupKey api.Rooms rid = some room) :
    (∃ room1, lookupKey (checkIn api u r now).1.Rooms rid = some room1) ∧
    (∃ room2, lookupKey (updatePresence api u r eIn now).1.Rooms rid = some room2) ∧
    lookupKey (listRooms api now).2.Rooms rid =
      some { room with Users := evictUsers room.Users now } ∧
    (rid, activeUserIds room.Users now) ∈ (listRooms api now).1 ∧
    ((∀ p ∈ room.Users, (p : String × User).2.ExpiresAt ≤ now) →
      (rid, ([] : List String)) ∈ (listRooms api now).1) := by
  refine ⟨?_, ?_, ?_, ?_, ?_⟩
  · by_cases hcond : u = "" ∨ r = ""
    · simp only [checkIn, if_pos hcond]
      exact ⟨room, hmem⟩
    · simp only [checkIn, if_neg hcond]
      by_cases hrr : rid = r
      · subst hrr
        exact ⟨_, lookupKey_insert_self _ _ _⟩
      · rw [lookupKey_insert_other _ _ _ _ hrr]
        exact ⟨room, hmem⟩
  · by_cases hcond : u = "" ∨ r = ""
    · simp only [updatePresence, if_pos hcond]
      exact ⟨room, hmem⟩
    · rcases hroom : lookupKey api.Rooms r with _ | room0
      · simp only [updatePresence, if_neg hcond, hroom]
        exact ⟨room, hmem⟩
      · rcases hentry : lookupKey room0.Users u with _ | entry
        · simp only [updatePresence, if_neg hcond, hroom, hentry]
          exact ⟨room, hmem⟩
        · simp only [updatePresence, if_neg hcond, hroom, hentry]
          by_cases hrr : rid = r
          · subst hrr
            exact ⟨_, lookupKey_insert_self _ _ _⟩
          · rw [lookupKey_insert_other _ _ _ _ hrr]
            exact ⟨room, hmem⟩
  · have h1 := lookupKey_map api.Rooms
      (fun rm => { rm with Users := evictUsers rm.Users now }) rid
    rw [hmem] at h1
    exact h1
  · have hmem' := lookupKey_mem _ _ _ hmem
    exact List.mem_map.mpr ⟨(rid, room), hmem', rfl⟩
  · intro hall
    have hev : evictUsers room.Users now = [] := by
      apply List.filter_eq_nil_iff.mpr
      intro p hp
      have hle := hall p hp
      simp only [decide_eq_true_eq]
      omega
    have hnil : activeUserIds room.Users now = [] := by
      simp [activeUserIds, hev]
    rw [← hnil]
    have hmem' := lookupKey_mem _ _ _ hmem
    exact List.mem_map.mpr ⟨(rid, room), hmem', rfl⟩

/-- Witness for C6 at the concrete expired registry `sampleApi` and time
150, where carol's entry is expired and room r3 survives with `[]`. -/
theorem rooms_never_deleted_witness :
    lookupKey sampleApi.Rooms "r3" = some ⟨"r3", [("carol", ⟨"carol", 100⟩)]⟩ ∧
    ((∃ room1,
        lookupKey (checkIn sampleApi "zoe" "r9" 150).1.Rooms "r3" = some room1) ∧
      (∃ room2,
        lookupKey (updatePresence sampleApi "zoe" "r9" 30 150).1.Rooms "r3" =
          some room2) ∧
      lookupKey (listRooms sampleApi 150).2.Rooms "r3" =
        some { (⟨"r3", [("carol", ⟨"carol", 100⟩)]⟩ : Room) with
          Users := evictUsers [("carol", ⟨"carol", 100⟩)] 150 } ∧
      ("r3", activeUserIds [("carol", ⟨"carol", 100⟩)] 150) ∈
        (listRooms sampleApi 150).1 ∧
      ((∀ p ∈ [("carol", (⟨"carol", (100 : Int)⟩ : User))],
          (p : String × User).2.ExpiresAt ≤ 150) →
        ("r3", ([] : List String)) ∈ (listRooms sampleApi 150).1)) :=
  ⟨by decide,
    rooms_never_deleted sampleApi "zoe" "r9" 30 150 "r3"
      ⟨"r3", [("carol", ⟨"carol", 100⟩)]⟩ (by decide)⟩

theorem countKey_eraseKey_self {β : Type} (l : List (String × β)) (k : String) :
    countKey (eraseKey l k) k = 0 := by
  induction l with
  | nil => rfl
  | cons p rest ih =>
    obtain ⟨a, b⟩ := p
    by_cases hak : a = k
    · simp [eraseKey, hak, ih]
    · simp [eraseKey, countKey, hak, ih]

theorem countKey_insertKey_self {β : Type} (l : List (String × β)) (k : String) (v : β) :
    countKey (insertKey l k v) k = 1 := by
  simp [insertKey, countKey, countKey_eraseKey_self]

theorem ensureRoomN_found (n : Nat) (rooms : List (String × Room)) (rid : String)
    (room : Room) (h : lookupKey rooms rid = some room) :
    ensureRoomN n rooms rid = (rooms, 0) := by
  induction n with
  | zero => rfl
  | succ m ih =>
    simp only [ensureRoomN, ensureRoom, h, ih]
    simp

/-- C7: the find-or-create critical section runs under the registry's
exclusive write lock (src/govitest.go:62-71), so any number of concurrent
check-ins for the same unseen room id execute it serially.  Over `n ≥ 1`
serialized executions, exactly one execution creates a Room, the registry
ends up with exactly one binding for that id, and that binding is the
single created (initially empty) room that every later caller finds. -/
theorem concurrent_ensureRoom_single_winner (rooms : List (String × Room))
    (rid : String) (n : Nat) (habs : lookupKey rooms rid = none) (hn : 1 ≤ n) :
    (ensureRoomN n rooms rid).2 = 1 ∧
    countKey (ensureRoomN n rooms rid).1 rid = 1 ∧
    lookupKey (ensureRoomN n rooms rid).1 rid = some ⟨rid, []⟩ := by
  obtain ⟨m, rfl⟩ : ∃ m, n = m + 1 := ⟨n - 1, by omega⟩
  have hstep : ensureRoom rooms rid =
      (insertKey rooms rid ⟨rid, []⟩, ⟨rid, []⟩, true) := by
    simp [ensureRoom, habs]
  have hrest := ensureRoomN_found m (insertKey rooms rid ⟨rid, []⟩) rid ⟨rid, []⟩
    (lookupKey_insert_self _ _ _)
  simp only [ensureRoomN, hstep, hrest]
  refine ⟨by simp, ?_, ?_⟩
  · simpa using countKey_insertKey_self rooms rid ⟨rid, []⟩
  · simpa using lookupKey_insert_self rooms rid (⟨rid, []⟩ : Room)

/-- Witness for C7: three serialized ensure-room executions for the unseen
id `"r9"` starting from the empty registry create exactly one room. -/
theorem concurrent_ensureRoom_single_winner_witness :
    lookupKey ([] : List (String × Room)) "r9" = none ∧ 1 ≤ 3 ∧
    ((ensureRoomN 3 [] "r9").2 = 1 ∧
      countKey (ensureRoomN 3 [] "r9").1 "r9" = 1 ∧
      lookupKey (ensureRoomN 3 [] "r9").1 "r9" = some ⟨"r9", []⟩) :=
  ⟨rfl, by decide,
    concurrent_ensureRoom_single_winner [] "r9" 3 rfl (by decide)⟩

theorem userKeysOk_insert (users : List (String × User)) (u : String) (e : User)
    (hok : UserKeysOk users) (hid : e.ID = u) : UserKeysOk (insertKey users u e) := by
  intro p hp
  rcases mem_insertKey _ _ _ _ hp with h1 | h2
  · rw [h1]
    exact hid
  · exact hok p h2

theorem userKeysOk_evict (users : List (String × User)) (now : Int)
    (hok : UserKeysOk users) : UserKeysOk (evictUsers users now) := by
  intro p hp
  exact hok p (List.mem_filter.mp hp).1

theorem keysConsistent_checkIn (api : ConferenceAPI) (u r : String) (now : Int)
    (h : KeysConsistent api) : KeysConsistent (checkIn api u r now).1 := by
  by_cases hcond : u = "" ∨ r = ""
  · simp only [checkIn, if_pos hcond]
    exact h
  · rcases hlk : lookupKey api.Rooms r with _ | room0
    · simp only [checkIn, if_neg hcond, hlk]
      intro q hq
      rcases mem_insertKey _ _ _ _ hq with h1 | h2
      · rw [h1]
        refine ⟨rfl, userKeysOk_insert [] u ⟨u, now + defaultTTL⟩ ?_ rfl⟩
        intro p hp
        simp at hp
      · exact h q h2
    · simp only [checkIn, if_neg hcond, hlk]
      intro q hq
      rcases mem_insertKey _ _ _ _ hq with h1 | h2
      · rw [h1]
        have hq0 := h (r, room0) (lookupKey_mem _ _ _ hlk)
        exact ⟨hq0.1, userKeysOk_insert room0.Users u ⟨u, now + defaultTTL⟩ hq0.2 rfl⟩
      · exact h q h2

theorem keysConsistent_update (api : ConferenceAPI) (u r : String) (eIn now : Int)
    (h : KeysConsistent api) : KeysConsistent (updatePresence api u r eIn now).1 := by
  by_cases hcond : u = "" ∨ r = ""
  · simp only [updatePresence, if_pos hcond]
    exact h
  · rcases hroom : lookupKey api.Rooms r with _ | room0
    · simp only [updatePresence, if_neg hcond, hroom]
      exact h
    · rcases hentry : lookupKey room0.Users u with _ | entry
      · simp only [updatePresence, if_neg hcond, hroom, hentry]
        exact h
      · simp only [updatePresence, if_neg hcond, hroom, hentry]
        intro q hq
        have hq0 := h (r, room0) (lookupKey_mem _ _ _ hroom)
        rcases mem_insertKey _ _ _ _ hq with h1 | h2
        · rw [h1]
          refine ⟨hq0.1, ?_⟩
          have hid : entry.ID = u := hq0.2 (u, entry) (lookupKey_mem _ _ _ hentry)
          exact userKeysOk_insert room0.Users u _ hq0.2 hid
        · exact h q h2

theorem keysConsistent_list (api : ConferenceAPI) (now : Int)
    (h : KeysConsistent api) : KeysConsistent (listRooms api now).2 := by
  intro q hq
  simp only [listRooms] at hq
  rcases List.mem_map.mp hq with ⟨q0, hq0, hq1⟩
  have h0 := h q0 hq0
  rw [← hq1]
  exact ⟨h0.1, userKeysOk_evict q0.2.Users now h0.2⟩

/-- C9: in every reachable registry state, each room is stored under its
own `Name` as key and each user entry under its own `ID` as key: check-in
establishes the fields (src/govitest.go:57-74), refresh rewrites only
`ExpiresAt` (src/govitest.go:115-123), and eviction only removes
entries. -/
theorem registry_key_consistency (api : ConferenceAPI) (h : Reachable api) :
    KeysConsistent api := by
  induction h with
  | init =>
    intro q hq
    simp at hq
  | stepCheckIn api u r now _ ih => exact keysConsistent_checkIn api u r now ih
  | stepUpdate api u r eIn now _ ih => exact keysConsistent_update api u r eIn now ih
  | stepList api now _ ih => exact keysConsistent_list api now ih

/-- Witness for C9: key consistency of the concrete reachable state built
by a check-in, then a refresh, then a list pass. -/
theorem registry_key_consistency_witness :
    Reachable (listRooms (updatePresence (checkIn ⟨[]⟩ "alice" "r1" 10).1
      "alice" "r1" 20 30).1 40).2 ∧
    KeysConsistent (listRooms (updatePresence (checkIn ⟨[]⟩ "alice" "r1" 10).1
      "alice" "r1" 20 30).1 40).2 :=
  ⟨Reachable.stepList _ 40 (Reachable.stepUpdate _ "alice" "r1" 20 30
      (Reachable.stepCheckIn _ "alice" "r1" 10 Reachable.init)),
    registry_key_consistency _ (Reachable.stepList _ 40
      (Reachable.stepUpdate _ "alice" "r1" 20 30
        (Reachable.stepCheckIn _ "alice" "r1" 10 Reachable.init)))⟩

/-! ### Supporting invariant: the association-list encoding of Go maps has
no duplicate keys in any reachable state.  This justifies the
no-duplicate-key hypothesis used for the eviction theorem. -/

theorem not_mem_keys_eraseKey {β : Type} (l : List (String × β)) (k : String) :
    k ∉ (eraseKey l k).map Prod.fst := by
  induction l with
  | nil => simp [eraseKey]
  | cons p rest ih =>
    obtain ⟨a, b⟩ := p
    by_cases hak : a = k
    · simp only [eraseKey, if_pos hak]
      exact ih
    · simp only [eraseKey, if_neg hak, List.map_cons, List.mem_cons]
      rintro (h1 | h2)
      · exact hak h1.symm
      · exact ih h2

theorem nodupKeys_eraseKey {β : Type} (l : List (String × β)) (k : String)
    (h : (l.map Prod.fst).Nodup) : ((eraseKey l k).map Prod.fst).Nodup := by
  induction l with
  | nil => simp [eraseKey]
  | cons p rest ih =>
    obtain ⟨a, b⟩ := p
    simp only [List.map_cons, List.nodup_cons] at h
    by_cases hak : a = k
    · simp only [eraseKey, if_pos hak]
      exact ih h.2
    · simp only [eraseKey, if_neg hak, List.map_cons, List.nodup_cons]
      refine ⟨?_, ih h.2⟩
      intro hmem
      rcases List.mem_map.mp hmem with ⟨p0, hp0, hfst⟩
      exact h.1 (List.mem_map.mpr ⟨p0, (mem_of_mem_eraseKey rest k p0 hp0).1, hfst⟩)

theorem nodupKeys_insertKey {β : Type} (l : List (String × β)) (k : String) (v : β)
    (h : (l.map Prod.fst).Nodup) : ((insertKey l k v).map Prod.fst).Nodup := by
  simp only [insertKey, List.map_cons, List.nodup_cons]
  exact ⟨not_mem_keys_eraseKey l k, nodupKeys_eraseKey l k h⟩

/-- The Go-map key uniqueness invariant on the encoded registry: neither
the room map nor any room's user map has a duplicate key. -/
def NodupState (api : ConferenceAPI) : Prop :=
  (api.Rooms.map Prod.fst).Nodup ∧
  ∀ q ∈ api.Rooms, ((q : String × Room).2.Users.map Prod.fst).Nodup

theorem nodupState_checkIn (api : ConferenceAPI) (u r : String) (now : Int)
    (h : NodupState api) : NodupState (checkIn api u r now).1 := by
  by_cases hcond : u = "" ∨ r = ""
  · simp only [checkIn, if_pos hcond]
    exact h
  · simp only [checkIn, if_neg hcond]
    refine ⟨nodupKeys_insertKey _ _ _ h.1, ?_⟩
    intro q hq
    rcases mem_insertKey _ _ _ _ hq with h1 | h2
    · rw [h1]
      rcases hlk : lookupKey api.Rooms r with _ | room0
      · simp only [hlk]
        exact nodupKeys_insertKey [] u _ (by simp)
      · simp only [hlk]
        exact nodupKeys_insertKey room0.Users u _
          (h.2 (r, room0) (lookupKey_mem _ _ _ hlk))
    · exact h.2 q h2

theorem nodupState_update (api : ConferenceAPI) (u r : String) (eIn now : Int)
    (h : NodupState api) : NodupState (updatePresence api u r eIn now).1 := by
  by_cases hcond : u = "" ∨ r = ""
  · simp only [updatePresence, if_pos hcond]
    exact h
  · rcases hroom : lookupKey api.Rooms r with _ | room0
    · simp only [updatePresence, if_neg hcond, hroom]
      exact h
    · rcases hentry : lookupKey room0.Users u with _ | entry
      · simp only [updatePresence, if_neg hcond, hroom, hentry]
        exact h
      · simp only [updatePresence, if_neg hcond, hroom, hentry]
        refine ⟨nodupKeys_insertKey _ _ _ h.1, ?_⟩
        intro q hq
        rcases mem_insertKey _ _ _ _ hq with h1 | h2
        · rw [h1]
          exact nodupKeys_insertKey room0.Users u _
            (h.2 (r, room0) (lookupKey_mem _ _ _ hroom))
        · exact h.2 q h2

theorem nodupState_list (api : ConferenceAPI) (now : Int)
    (h : NodupState api) : NodupState (listRooms api now).2 := by
  constructor
  · simp only [listRooms, List.map_map]
    have : (Prod.fst ∘ fun p : String × Room =>
        (p.1, { p.2 with Users := evictUsers p.2.Users now })) = Prod.fst := by
      funext p
      rfl
    rw [this]
    exact h.1
  · intro q hq
    simp only [listRooms] at hq
    rcases List.mem_map.mp hq with ⟨q0, hq0, hq1⟩
    rw [← hq1]
    exact List.Nodup.sublist
      (List.Sublist.map Prod.fst (List.filter_sublist _)) (h.2 q0 hq0)

/-- Every reachable registry state satisfies the Go-map key-uniqueness
invariant (so the `Nodup` hypothesis of the eviction theorem holds in
every state the program can actually be in). -/
theorem reachable_nodupState (api : ConferenceAPI) (h : Reachable api) :
    NodupState api := by
  induction h with
  | init => exact ⟨List.nodup_nil, by intro q hq; simp at hq⟩
  | stepCheckIn api u r now _ ih => exact nodupState_checkIn api u r now ih
  | stepUpdate api u r eIn now _ ih => exact nodupState_update api u r eIn now ih
  | stepList api now _ ih => exact nodupState_list api now ih
